import Mathlib

/-!
Shallow embedding of the Stepper troubleshooting core:
the tokenizer/similarity functions and deduplication engine (dedupe.js),
the step-runner state machine (modules/stepRunner.js), and the
retrieval scorer (MockRetrievalProvider.search).

Strings are modelled as Lean `String`s over their character lists; the
JavaScript `toLowerCase`, `\w`, `\s` character classes are modelled at the
ASCII level, which is exact for the corpus texts this system handles.
JavaScript `Set` iteration order is insertion order, so a JS `Set` of step
ids is modelled as a duplicate-free list in insertion order. Wall-clock
timestamps attached to history records are dropped: only the payload
fields that the state machine reads are kept.
-/

namespace Stepper

/-- Character class `\w` of the JavaScript regexp used by the tokenizer:
ASCII letters, digits and underscore. -/
def isWordChar (c : Char) : Bool :=
  c.isAlphanum || c = '_'

/-- Character class `\s` (whitespace) as it occurs in the source texts:
space, tab, newline, carriage return, form feed and vertical tab. -/
def isSpaceChar (c : Char) : Bool :=
  c = ' ' || c = '\t' || c = '\n' || c = '\r' || c = '\x0c' || c = '\x0b'

/-- Lower-casing of a string, character by character (JS `toLowerCase`,
restricted to its ASCII action). -/
def strLower (s : String) : String :=
  String.mk (s.data.map Char.toLower)

/-- Splitting a character list into maximal runs of non-space characters,
dropping the separators; used to model `split(/\s+/)` followed by the
removal of empty tokens. -/
def tokensAux (cs : List Char) (acc : List Char) : List String :=
  match cs with
  | [] => if acc.isEmpty then [] else [String.mk acc.reverse]
  | c :: rest =>
    if isSpaceChar c then
      if acc.isEmpty then tokensAux rest []
      else String.mk acc.reverse :: tokensAux rest []
    else
      tokensAux rest (c :: acc)

/-- normalizeToTokens (dedupe.js): lower-case, replace every character that
is neither `\w` nor `\s` by a space, split on whitespace, drop empty
tokens.  The falsy guard `if (!text) return []` is the empty-string case. -/
def normalizeToTokens (text : String) : List String :=
  if text = "" then []
  else
    let lowered := text.data.map Char.toLower
    let replaced := lowered.map (fun c => if isWordChar c || isSpaceChar c then c else ' ')
    tokensAux replaced []

/-- calculateJaccardSimilarity (dedupe.js): intersection size over union
size of the two token sets, `0` when the union is empty.  JS numbers are
modelled by exact rationals; for the set sizes occurring here the float
comparison against the threshold agrees with the exact one. -/
def calculateJaccardSimilarity (tokens1 tokens2 : List String) : ℚ :=
  let set1 := tokens1.toFinset
  let set2 := tokens2.toFinset
  let inter := set1 ∩ set2
  let union := set1 ∪ set2
  if union.card = 0 then 0 else (inter.card : ℚ) / (union.card : ℚ)

/-- STEP_SIMILARITY_THRESHOLD (dedupe.js). -/
def STEP_SIMILARITY_THRESHOLD : ℚ := 6 / 10

/-- areStepsSimilar (dedupe.js) with an explicit threshold argument. -/
def areStepsSimilarWith (text1 text2 : String) (threshold : ℚ) : Bool :=
  if text1 = text2 then true
  else calculateJaccardSimilarity (normalizeToTokens text1) (normalizeToTokens text2) > threshold

/-- areStepsSimilar (dedupe.js) at its default threshold. -/
def areStepsSimilar (text1 text2 : String) : Bool :=
  areStepsSimilarWith text1 text2 STEP_SIMILARITY_THRESHOLD

/-- A Step of an article path: identifier plus instructional text (the
only fields the core reads). -/
structure Step where
  id : String
  text : String
  deriving DecidableEq, Repr

/-- findStepsToSkip (dedupe.js): the set of indices of candidate steps
whose text is similar to at least one completed step text. -/
def findStepsToSkip (fallbackSteps : List Step) (completedStepTexts : List String) : Finset ℕ :=
  ((fallbackSteps.enum.filter
      (fun p => completedStepTexts.any (fun t => areStepsSimilar p.2.text t))).map
    Prod.fst).toFinset

/-- calculateKeywordOverlap (dedupe.js): the number of trigger keywords
whose lower-cased form occurs among the query tokens (exact-token set
membership). -/
def calculateKeywordOverlap (triggerKeywords queryTokens : List String) : ℕ :=
  if triggerKeywords.isEmpty then 0
  else if queryTokens.isEmpty then 0
  else (triggerKeywords.filter (fun k => strLower k ∈ queryTokens)).length

/-- A Fallback of an article: identifier, reason category, trigger
keywords and its own step path (absent `trigger_keywords` in the JS data
is the empty list, which the code also substitutes via `|| []`). -/
structure Fallback where
  id : String
  reason_category : String
  trigger_keywords : List String
  steps : List Step
  deriving DecidableEq, Repr

/-- The Escalation record of an article: when-condition text and target
text. -/
structure Escalation where
  whenText : String
  target : String
  deriving DecidableEq, Repr

/-- An Article, restricted to the fields the core reads.  Absent optional
fields of the JS objects are the empty list; a falsy (absent or empty)
`product` or `title` is the empty string. -/
structure Article where
  id : ℕ
  title : String
  tags : List String
  product : String
  keywords : List String
  steps : List Step
  fallbacks : List Fallback
  escalation : Escalation
  deriving DecidableEq, Repr

/-- A failure record of the failure history (stepId, reasonCategory,
note); the wall-clock timestamp is dropped. -/
structure FailureRecord where
  stepId : String
  reasonCategory : String
  note : String
  deriving DecidableEq, Repr

/-- The RunState held by a StepRunner instance (stepRunner.js `this.state`).
`completedStepIds` models the JS `Set` as an insertion-ordered
duplicate-free list; `attemptedPaths` keeps the path tags of the attempted
path records (their timestamps are dropped). -/
structure RunState where
  selectedArticleId : Option ℕ
  activePath : String
  currentStepIndex : ℕ
  completedStepIds : List String
  attemptedPaths : List String
  failureHistory : List FailureRecord
  skippedStepsCount : ℕ
  deriving DecidableEq, Repr

/-- Insertion into a JS `Set` modelled as a list: append when absent. -/
def setAdd (xs : List String) (x : String) : List String :=
  if x ∈ xs then xs else xs ++ [x]

/-- The state installed by `reset()`. -/
def initialState : RunState :=
  { selectedArticleId := none
    activePath := "main"
    currentStepIndex := 0
    completedStepIds := []
    attemptedPaths := []
    failureHistory := []
    skippedStepsCount := 0 }

/-- reset (stepRunner.js): unconditionally reinstall the initial state. -/
def reset (_ : RunState) : RunState := initialState

/-- getStepsForActivePath (stepRunner.js): the main steps when the active
path is "main", otherwise the steps of the fallback whose id equals the
active path (empty when no such fallback exists). -/
def getStepsForActivePath (s : RunState) (article : Article) : List Step :=
  if s.activePath = "main" then article.steps
  else
    match article.fallbacks.find? (fun f => f.id = s.activePath) with
    | some fb => fb.steps
    | none => []

/-- getTotalSteps (stepRunner.js). -/
def getTotalSteps (s : RunState) (article : Article) : ℕ :=
  (getStepsForActivePath s article).length

/-- getCurrentStep (stepRunner.js): the step at the current index, `none`
past the end. -/
def getCurrentStep (s : RunState) (article : Article) : Option Step :=
  (getStepsForActivePath s article).get? s.currentStepIndex

/-- startArticle (stepRunner.js): reset, select the article, path "main"
at index 0, record the attempted path; returns the total step count and
the first step. -/
def startArticle (articleId : ℕ) (article : Article) : RunState × (ℕ × Option Step) :=
  let s := { initialState with
              selectedArticleId := some articleId
              activePath := "main"
              currentStepIndex := 0
              attemptedPaths := ["main"] }
  (s, (getTotalSteps s article, getCurrentStep s article))

/-- The result of `continue`: the JS code returns the bare object
`{completed: true}` when already past the last step, and a full record
otherwise. -/
inductive ContinueResult where
  | alreadyDone
  | advanced (completed : Bool) (nextStep : Option Step)
      (currentStepIndex totalSteps : ℕ)
  deriving DecidableEq, Repr

/-- The `completed` field of a `continue` result (`true` for the bare
`{completed: true}` object). -/
def ContinueResult.completed : ContinueResult → Bool
  | .alreadyDone => true
  | .advanced c _ _ _ => c

/-- continue (stepRunner.js); named `continueRun` because `continue` is a
reserved word in Lean.  Marks the current step completed, advances the
index, and reports whether the new index is past the end together with
the next step. -/
def continueRun (s : RunState) (article : Article) : RunState × ContinueResult :=
  match getCurrentStep s article with
  | none => (s, .alreadyDone)
  | some currentStep =>
    let s1 := { s with
                completedStepIds := setAdd s.completedStepIds currentStep.id
                currentStepIndex := s.currentStepIndex + 1 }
    let steps := getStepsForActivePath s1 article
    let isLastStep := decide (steps.length ≤ s1.currentStepIndex)
    (s1, .advanced isLastStep
          (if isLastStep then none else getCurrentStep s1 article)
          s1.currentStepIndex
          (getTotalSteps s1 article))

/-- The result of `back`: success flag only (the extra JS fields carry no
state). -/
structure BackResult where
  success : Bool
  deriving DecidableEq, Repr

/-- back (stepRunner.js): decrement the index when it is positive,
otherwise report failure without mutation. -/
def back (s : RunState) : RunState × BackResult :=
  if 0 < s.currentStepIndex then
    ({ s with currentStepIndex := s.currentStepIndex - 1 }, ⟨true⟩)
  else
    (s, ⟨false⟩)

/-- recordFailure (stepRunner.js): append to the failure history. -/
def recordFailure (s : RunState) (stepId reasonCategory note : String) : RunState :=
  { s with failureHistory := s.failureHistory ++ [⟨stepId, reasonCategory, note⟩] }

/-- The index the JS loop in `switchToFallback` leaves in `startIndex`:
the first index below `n` outside the skip set, and the initial value `0`
when every index is skipped. -/
def firstNonSkipped (n : ℕ) (skip : Finset ℕ) : ℕ :=
  (((List.range n).find? (fun i => decide (i ∉ skip)))).getD 0

/-- The result of `switchToFallback`. -/
structure SwitchResult where
  totalSteps : ℕ
  currentStep : Option Step
  skippedSteps : ℕ
  deriving DecidableEq, Repr

/-- switchToFallback (stepRunner.js): install the fallback id as active
path, record the attempted path, compute the skip set over the fallback's
steps, position the index at the first non-skipped step and record that
index as the skipped-steps count. -/
def switchToFallback (s : RunState) (fallbackId : String) (article : Article)
    (completedStepTexts : List String) : RunState × SwitchResult :=
  let s1 := { s with
              activePath := fallbackId
              attemptedPaths := s.attemptedPaths ++ [fallbackId] }
  let fallbackSteps := getStepsForActivePath s1 article
  let stepsToSkip := findStepsToSkip fallbackSteps completedStepTexts
  let startIndex := firstNonSkipped fallbackSteps.length stepsToSkip
  let s2 := { s1 with
              currentStepIndex := startIndex
              skippedStepsCount := startIndex }
  (s2, { totalSteps := getTotalSteps s2 article
         currentStep := getCurrentStep s2 article
         skippedSteps := startIndex })

/-- isComplete (stepRunner.js): the index is at or past the end of the
active path. -/
def isComplete (s : RunState) (article : Article) : Bool :=
  (getStepsForActivePath s article).length ≤ s.currentStepIndex

/-- getState (stepRunner.js): the JS method copies the state and converts
the completed-id `Set` to an array; in this model `completedStepIds` is
already an insertion-ordered list, so the view is the state itself. -/
def getState (s : RunState) : RunState := s

/-- The running-best fold of `findFallbackInArticle`: keep the current
best, replace it only on a strictly greater keyword-overlap score. -/
def bestByOverlap (queryTokens : List String) (first : Fallback)
    (rest : List Fallback) : Fallback :=
  rest.foldl
    (fun best fb =>
      if calculateKeywordOverlap best.trigger_keywords queryTokens <
          calculateKeywordOverlap fb.trigger_keywords queryTokens
      then fb else best)
    first

/-- findFallbackInArticle (stepRunner.js): filter the article's fallbacks
by reason category; none → `none`, exactly one → it, several → the one
with the best keyword overlap (first on ties). -/
def findFallbackInArticle (article : Article) (reasonCategory : String)
    (queryTokens : List String) : Option Fallback :=
  if article.fallbacks.isEmpty then none
  else
    match article.fallbacks.filter (fun fb => fb.reason_category = reasonCategory) with
    | [] => none
    | [fb] => some fb
    | first :: rest => some (bestByOverlap queryTokens first rest)

/-- findFallbackAcrossArticles (stepRunner.js): first article in corpus
order, the current article skipped by id, whose same-article search
succeeds. -/
def findFallbackAcrossArticles (allArticles : List Article) (reasonCategory : String)
    (queryTokens : List String) (currentArticleId : ℕ) : Option (Article × Fallback) :=
  match allArticles with
  | [] => none
  | article :: rest =>
    if article.id = currentArticleId then
      findFallbackAcrossArticles rest reasonCategory queryTokens currentArticleId
    else
      match findFallbackInArticle article reasonCategory queryTokens with
      | some fb => some (article, fb)
      | none => findFallbackAcrossArticles rest reasonCategory queryTokens currentArticleId

/-- The tagged result of `selectFallback`. -/
inductive FallbackResult where
  | sameArticle (fallback : Fallback) (article : Article)
  | crossArticle (fallback : Fallback) (article : Article)
  | escalation (esc : Escalation)
  deriving DecidableEq, Repr

/-- selectFallback (stepRunner.js): tokenize the failure note, try the
current article, then the rest of the corpus, then escalate with the
current article's escalation record. -/
def selectFallback (currentArticle : Article) (allArticles : List Article)
    (reasonCategory : String) (failureNote : String) : FallbackResult :=
  let queryTokens := normalizeToTokens failureNote
  match findFallbackInArticle currentArticle reasonCategory queryTokens with
  | some fb => .sameArticle fb currentArticle
  | none =>
    match findFallbackAcrossArticles allArticles reasonCategory queryTokens currentArticle.id with
    | some (article, fb) => .crossArticle fb article
    | none => .escalation currentArticle.escalation

/-- Decides whether `needle` is a leading segment of `hay`. -/
def leadsChars : List Char → List Char → Bool
  | [], _ => true
  | _ :: _, [] => false
  | a :: as, b :: bs => a = b && leadsChars as bs

/-- Decides whether `needle` occurs contiguously inside `hay`
(JS `String.prototype.includes`, `hay.includes(needle)`). -/
def containsSub (hay needle : List Char) : Bool :=
  match hay with
  | [] => needle.isEmpty
  | _ :: rest => leadsChars needle hay || containsSub rest needle

/-- String form of `containsSub`: `strContains s sub` models
`s.includes(sub)`. -/
def strContains (s sub : String) : Bool :=
  containsSub s.data sub.data

/-- JS `split(/\s+/)` on a character list: pieces between maximal
whitespace runs, keeping the empty boundary pieces (a string that starts
or ends with whitespace yields a leading or trailing empty piece, and the
empty string yields the single piece `""`).  The `inSep` flag records
that the previous character belonged to the current whitespace run, so a
run of several whitespace characters emits a single boundary. -/
def splitWsAux (cs : List Char) (acc : List Char) (inSep : Bool) : List String :=
  match cs with
  | [] => [String.mk acc.reverse]
  | c :: rest =>
    if isSpaceChar c then
      if inSep then splitWsAux rest acc true
      else String.mk acc.reverse :: splitWsAux rest [] true
    else
      splitWsAux rest (c :: acc) false

/-- JS `query.split(/\s+/)`: note the absence of any empty-token filter
in the retrieval scorer's query tokenization. -/
def splitWs (s : String) : List String :=
  splitWsAux s.data [] false

/-- The retrieval score of one article (MockRetrievalProvider.search):
+3 per tag whose lower-cased text contains some query token as a
substring, +2 when the query contains the product name, +1 when the
lower-cased title contains the whole query, +1 per keyword contained in
the query.  Truthiness guards on `product` and `title` are the
empty-string tests. -/
def scoreArticle (queryLower : String) (queryTokens : List String) (a : Article) : ℕ :=
  let tagPts := a.tags.foldl
    (fun acc tag =>
      if queryTokens.any (fun tok => strContains (strLower tag) tok) then acc + 3 else acc)
    0
  let productPts :=
    if a.product ≠ "" ∧ strContains queryLower (strLower a.product) = true then 2 else 0
  let titlePts :=
    if a.title ≠ "" ∧ strContains (strLower a.title) queryLower = true then 1 else 0
  let keywordPts := a.keywords.foldl
    (fun acc kw => if strContains queryLower (strLower kw) then acc + 1 else acc)
    0
  tagPts + productPts + titlePts + keywordPts

/-- One retrieval result: article plus score (the match-detail object is
derived data and carries no behavior). -/
structure RetrievalResult where
  article : Article
  score : ℕ
  deriving DecidableEq, Repr

/-- Descending-by-score order used by the sort comparator
`(a, b) => b.score - a.score`. -/
def byScoreDesc (a b : RetrievalResult) : Prop :=
  b.score ≤ a.score

instance : DecidableRel byScoreDesc := fun a b => Nat.decLe b.score a.score

/-- The default result limit (`{ limit = 3 }`). -/
def defaultResultLimit : ℕ := 3

/-- The mapped result list of `search` before filtering: every article of
the corpus paired with its score against the query. -/
def scoredResults (articles : List Article) (query : String) : List RetrievalResult :=
  let queryLower := strLower query
  let queryTokens := splitWs queryLower
  articles.map (fun a => RetrievalResult.mk a (scoreArticle queryLower queryTokens a))

/-- search (MockRetrievalProvider): score every article, drop the
non-positive scores, sort by score descending and truncate to the limit.
JS `Array.prototype.sort` is stable, and a stable sort by a total
preorder has a unique result, here produced by insertion sort. -/
def search (articles : List Article) (query : String) (limit : ℕ) : List RetrievalResult :=
  ((scoredResults articles query).filter (fun r => 0 < r.score)).insertionSort byScoreDesc
    |>.take limit

/-- One Step Runner operation together with the arguments its caller
passes; a run of the state machine is a list of these. -/
inductive Op where
  | start (articleId : ℕ) (article : Article)
  | cont (article : Article)
  | goBack
  | fail (stepId reasonCategory note : String)
  | switchFb (fallbackId : String) (article : Article) (completedStepTexts : List String)
  deriving DecidableEq, Repr

/-- Apply one operation to the state, discarding the returned payload. -/
def applyOp (s : RunState) : Op → RunState
  | .start articleId article => (startArticle articleId article).1
  | .cont article => (continueRun s article).1
  | .goBack => (back s).1
  | .fail stepId reasonCategory note => recordFailure s stepId reasonCategory note
  | .switchFb fallbackId article texts => (switchToFallback s fallbackId article texts).1

/-- The state after a sequence of operations, starting from the
freshly-constructed runner. -/
def runTrace (ops : List Op) : RunState :=
  ops.foldl applyOp initialState

/-- When no fallback of the article carries the requested reason
category, the same-article search yields nothing. -/
theorem findFallbackInArticle_eq_none (article : Article) (reasonCategory : String)
    (queryTokens : List String)
    (h : ∀ fb ∈ article.fallbacks, fb.reason_category ≠ reasonCategory) :
    findFallbackInArticle article reasonCategory queryTokens = none := by
  have hfilter : article.fallbacks.filter (fun fb => fb.reason_category = reasonCategory) = [] :=
    List.filter_eq_nil_iff.mpr (by intro fb hfb; simp [h fb hfb])
  unfold findFallbackInArticle
  by_cases he : article.fallbacks.isEmpty <;> simp [he, hfilter]

/-- When every non-current article of the corpus lacks the requested
reason category, the cross-article search yields nothing. -/
theorem findFallbackAcrossArticles_eq_none (allArticles : List Article)
    (reasonCategory : String) (queryTokens : List String) (currentArticleId : ℕ)
    (h : ∀ a ∈ allArticles, a.id ≠ currentArticleId →
      ∀ fb ∈ a.fallbacks, fb.reason_category ≠ reasonCategory) :
    findFallbackAcrossArticles allArticles reasonCategory queryTokens currentArticleId = none := by
  induction allArticles with
  | nil => rfl
  | cons a rest ih =>
    have ihrest := ih (fun b hb => h b (List.mem_cons_of_mem a hb))
    unfold findFallbackAcrossArticles
    by_cases hid : a.id = currentArticleId
    · simp [hid, ihrest]
    · have hnone := findFallbackInArticle_eq_none a reasonCategory queryTokens
        (h a (List.mem_cons_self a rest) hid)
      simp [hid, hnone, ihrest]

/-- C3: when neither the current article nor any other corpus article has
a fallback of the requested reason category, `selectFallback` returns the
escalation result carrying the current article's own escalation record
unchanged. -/
theorem C3_escalation_verbatim :
    ∀ (currentArticle : Article) (allArticles : List Article)
      (reasonCategory failureNote : String),
      (∀ fb ∈ currentArticle.fallbacks, fb.reason_category ≠ reasonCategory) →
      (∀ a ∈ allArticles, a.id ≠ currentArticle.id →
        ∀ fb ∈ a.fallbacks, fb.reason_category ≠ reasonCategory) →
      selectFallback currentArticle allArticles reasonCategory failureNote =
        FallbackResult.escalation currentArticle.escalation := by
  intro cur all reasonCategory note h1 h2
  simp [selectFallback,
    findFallbackInArticle_eq_none cur reasonCategory (normalizeToTokens note) h1,
    findFallbackAcrossArticles_eq_none all reasonCategory (normalizeToTokens note) cur.id h2]

/-- Article used to witness C3: it has a fallback, but none of category
"permission-issue". -/
def artPerm : Article :=
  { id := 1, title := "Perm", tags := [], product := "", keywords := []
    steps := [{ id := "p1", text := "open settings" }]
    fallbacks := [{ id := "fx", reason_category := "no-change", trigger_keywords := []
                    steps := [] }]
    escalation := { whenText := "when all else fails", target := "IT desk" } }

/-- Second corpus article for the C3 witness, also without the requested
category. -/
def artOther : Article :=
  { id := 2, title := "Other", tags := [], product := "", keywords := []
    steps := []
    fallbacks := [{ id := "fy", reason_category := "system-error", trigger_keywords := []
                    steps := [] }]
    escalation := { whenText := "w2", target := "t2" } }

/-- Witness for C3: the spec's escalation scenario at a concrete corpus. -/
theorem C3_escalation_verbatim_witness :
    selectFallback artPerm [artPerm, artOther] "permission-issue" "cannot open settings" =
      FallbackResult.escalation
        { whenText := "when all else fails", target := "IT desk" } :=
  C3_escalation_verbatim artPerm [artPerm, artOther] "permission-issue" "cannot open settings"
    (by decide) (by decide)

/-- Repeated application of `continue`, in call order. -/
def iterateContinue (article : Article) : ℕ → RunState → RunState
  | 0, s => s
  | n + 1, s => iterateContinue article n (continueRun s article).1

/-- Invariant of the `continue` loop on the main path: having completed
the prefix `pre`, the remaining `suf.length` calls complete every main
step. -/
theorem iterateContinue_main (article : Article)
    (hnodup : (article.steps.map Step.id).Nodup) :
    ∀ (suf pre : List Step) (s : RunState),
      article.steps = pre ++ suf →
      s.activePath = "main" →
      s.currentStepIndex = pre.length →
      s.completedStepIds = pre.map Step.id →
      iterateContinue article suf.length s =
        { s with currentStepIndex := article.steps.length
                 completedStepIds := article.steps.map Step.id } := by
  intro suf
  induction suf with
  | nil =>
    intro pre s hsteps hpath hidx hcomp
    cases s
    simp only [iterateContinue]
    simp_all
  | cons step rest ih =>
    intro pre s hsteps hpath hidx hcomp
    have hactive : getStepsForActivePath s article = pre ++ step :: rest := by
      simp [getStepsForActivePath, hpath, hsteps]
    have hcur : getCurrentStep s article = some step := by
      unfold getCurrentStep
      rw [hactive, hidx, List.get?_append_right (Nat.le_refl _)]
      simp
    have hnotmem : step.id ∉ pre.map Step.id := by
      rw [hsteps] at hnodup
      have hdisj := (List.nodup_append.mp (by simpa using hnodup)).2.2
      intro hmem
      exact hdisj hmem (by simp)
    have hstate : (continueRun s article).1 =
        { s with completedStepIds := pre.map Step.id ++ [step.id]
                 currentStepIndex := pre.length + 1 } := by
      simp [continueRun, hcur, setAdd, hcomp, hnotmem, hidx]
    have happ : article.steps = (pre ++ [step]) ++ rest := by
      rw [hsteps]; simp
    have ihres := ih (pre ++ [step]) (continueRun s article).1 happ
      (by rw [hstate]; exact hpath)
      (by rw [hstate]; simp)
      (by rw [hstate]; simp)
    show iterateContinue article rest.length (continueRun s article).1 = _
    rw [ihres, hstate]

/-- C5: on an article whose main steps have pairwise-distinct ids,
`startArticle` followed by exactly N = number-of-main-steps calls of
`continue` completes exactly those step ids in order, makes `isComplete`
true, and one further `continue` returns the bare completed result while
mutating nothing. -/
theorem C5_continue_exactly_n :
    ∀ (articleId : ℕ) (article : Article),
      (article.steps.map Step.id).Nodup →
      (iterateContinue article article.steps.length
          (startArticle articleId article).1).completedStepIds =
        article.steps.map Step.id ∧
      isComplete (iterateContinue article article.steps.length
          (startArticle articleId article).1) article = true ∧
      continueRun (iterateContinue article article.steps.length
          (startArticle articleId article).1) article =
        (iterateContinue article article.steps.length
          (startArticle articleId article).1, ContinueResult.alreadyDone) := by
  intro articleId article hnodup
  have hrun := iterateContinue_main article hnodup article.steps []
    (startArticle articleId article).1 (by simp) rfl rfl rfl
  refine ⟨by rw [hrun], by rw [hrun]; simp [isComplete, getStepsForActivePath, startArticle], ?_⟩
  have hnone : getCurrentStep (iterateContinue article article.steps.length
      (startArticle articleId article).1) article = none := by
    rw [hrun]
    simp only [getCurrentStep, getStepsForActivePath, startArticle]
    simp [List.get?_eq_none.mpr (Nat.le_refl _)]
  rw [hrun] at hnone ⊢
  simp [continueRun, hnone]

/-- Article with two distinct-id main steps, used to witness C5. -/
def artTwoSteps : Article :=
  { id := 3, title := "Two", tags := [], product := "", keywords := []
    steps := [{ id := "s1", text := "alpha" }, { id := "s2", text := "beta" }]
    fallbacks := [], escalation := { whenText := "w", target := "t" } }

/-- Witness for C5 on the two-step article. -/
theorem C5_continue_exactly_n_witness :
    ((artTwoSteps.steps.map Step.id).Nodup) ∧
    ((iterateContinue artTwoSteps artTwoSteps.steps.length
        (startArticle 3 artTwoSteps).1).completedStepIds =
      artTwoSteps.steps.map Step.id ∧
    isComplete (iterateContinue artTwoSteps artTwoSteps.steps.length
        (startArticle 3 artTwoSteps).1) artTwoSteps = true ∧
    continueRun (iterateContinue artTwoSteps artTwoSteps.steps.length
        (startArticle 3 artTwoSteps).1) artTwoSteps =
      (iterateContinue artTwoSteps artTwoSteps.steps.length
        (startArticle 3 artTwoSteps).1, ContinueResult.alreadyDone)) :=
  ⟨by decide, C5_continue_exactly_n 3 artTwoSteps (by decide)⟩

/-- Unfolding of the running-best fold over a cons cell. -/
theorem bestByOverlap_cons (queryTokens : List String) (x y : Fallback) (ys : List Fallback) :
    bestByOverlap queryTokens x (y :: ys) =
      bestByOverlap queryTokens
        (if calculateKeywordOverlap x.trigger_keywords queryTokens <
            calculateKeywordOverlap y.trigger_keywords queryTokens then y else x) ys :=
  rfl

/-- The running best is one of the candidates. -/
theorem bestByOverlap_mem (queryTokens : List String) :
    ∀ (l : List Fallback) (x : Fallback), bestByOverlap queryTokens x l ∈ x :: l := by
  intro l
  induction l with
  | nil => intro x; simp [bestByOverlap]
  | cons y ys ih =>
    intro x
    by_cases hc : calculateKeywordOverlap x.trigger_keywords queryTokens <
        calculateKeywordOverlap y.trigger_keywords queryTokens
    · rw [bestByOverlap_cons, if_pos hc]
      have h := ih y
      simp only [List.mem_cons] at h ⊢
      tauto
    · rw [bestByOverlap_cons, if_neg hc]
      have h := ih x
      simp only [List.mem_cons] at h ⊢
      tauto

/-- No candidate beats the running best's keyword overlap. -/
theorem bestByOverlap_le (queryTokens : List String) :
    ∀ (l : List Fallback) (x w : Fallback), w ∈ x :: l →
      calculateKeywordOverlap w.trigger_keywords queryTokens ≤
        calculateKeywordOverlap (bestByOverlap queryTokens x l).trigger_keywords queryTokens := by
  intro l
  induction l with
  | nil =>
    intro x w hw
    simp only [List.mem_cons, List.not_mem_nil, or_false] at hw
    subst hw
    simp [bestByOverlap]
  | cons y ys ih =>
    intro x w hw
    by_cases hc : calculateKeywordOverlap x.trigger_keywords queryTokens <
        calculateKeywordOverlap y.trigger_keywords queryTokens
    · rw [bestByOverlap_cons, if_pos hc]
      rcases List.mem_cons.mp hw with h | h
      · rw [h]
        exact le_trans (Nat.le_of_lt hc) (ih y y (List.mem_cons_self y ys))
      · exact ih y w h
    · rw [bestByOverlap_cons, if_neg hc]
      rcases List.mem_cons.mp hw with h | h
      · rw [h]
        exact ih x x (List.mem_cons_self x ys)
      · rcases List.mem_cons.mp h with h2 | h2
        · rw [h2]
          exact le_trans (Nat.le_of_not_lt hc) (ih x x (List.mem_cons_self x ys))
        · exact ih x w (List.mem_cons_of_mem x h2)

/-- The running best is the base element, or the first candidate in list
order that strictly improves on everything before it: every strictly
earlier candidate (and the base) has a strictly smaller overlap. -/
theorem bestByOverlap_first (queryTokens : List String) :
    ∀ (l : List Fallback) (x : Fallback),
      bestByOverlap queryTokens x l = x ∨
      ∃ k, l.get? k = some (bestByOverlap queryTokens x l) ∧
        calculateKeywordOverlap x.trigger_keywords queryTokens <
          calculateKeywordOverlap (bestByOverlap queryTokens x l).trigger_keywords queryTokens ∧
        ∀ j < k, ∀ g, l.get? j = some g →
          calculateKeywordOverlap g.trigger_keywords queryTokens <
            calculateKeywordOverlap (bestByOverlap queryTokens x l).trigger_keywords queryTokens := by
  intro l
  induction l with
  | nil => intro x; left; rfl
  | cons y ys ih =>
    intro x
    by_cases hc : calculateKeywordOverlap x.trigger_keywords queryTokens <
        calculateKeywordOverlap y.trigger_keywords queryTokens
    · rw [bestByOverlap_cons, if_pos hc]
      rcases ih y with h | ⟨k, hk, hlt, hearl⟩
      · right
        refine ⟨0, by rw [h]; rfl, by rw [h]; exact hc, ?_⟩
        intro j hj
        omega
      · right
        refine ⟨k + 1, hk, lt_trans hc hlt, ?_⟩
        intro j hj g hg
        cases j with
        | zero =>
          have hgy : y = g := by simpa using hg
          rw [← hgy]
          exact hlt
        | succ j' =>
          exact hearl j' (Nat.succ_lt_succ_iff.mp hj) g hg
    · rw [bestByOverlap_cons, if_neg hc]
      rcases ih x with h | ⟨k, hk, hlt, hearl⟩
      · left; exact h
      · right
        refine ⟨k + 1, hk, hlt, ?_⟩
        intro j hj g hg
        cases j with
        | zero =>
          have hgy : y = g := by simpa using hg
          rw [← hgy]
          exact lt_of_le_of_lt (Nat.le_of_not_lt hc) hlt
        | succ j' =>
          exact hearl j' (Nat.succ_lt_succ_iff.mp hj) g hg

/-- C2: with at least two fallbacks of the requested category on the
article, `selectFallback` stays in the same-article tier and returns a
category-matching fallback of maximal trigger-keyword overlap with the
tokenized failure note; every candidate earlier in the article's declared
order scores strictly lower, so ties resolve to the first in order. -/
theorem C2_same_article_best_overlap :
    ∀ (article : Article) (allArticles : List Article)
      (reasonCategory failureNote : String),
      2 ≤ (article.fallbacks.filter
        (fun fb => fb.reason_category = reasonCategory)).length →
      ∃ fb k,
        selectFallback article allArticles reasonCategory failureNote =
          FallbackResult.sameArticle fb article ∧
        (article.fallbacks.filter
          (fun fb => fb.reason_category = reasonCategory)).get? k = some fb ∧
        (∀ g ∈ article.fallbacks.filter (fun fb => fb.reason_category = reasonCategory),
          calculateKeywordOverlap g.trigger_keywords (normalizeToTokens failureNote) ≤
            calculateKeywordOverlap fb.trigger_keywords (normalizeToTokens failureNote)) ∧
        (∀ j < k, ∀ g,
          (article.fallbacks.filter
            (fun fb => fb.reason_category = reasonCategory)).get? j = some g →
          calculateKeywordOverlap g.trigger_keywords (normalizeToTokens failureNote) <
            calculateKeywordOverlap fb.trigger_keywords (normalizeToTokens failureNote)) := by
  intro article allArticles reasonCategory failureNote hlen
  rcases hm : article.fallbacks.filter (fun fb => fb.reason_category = reasonCategory) with
    _ | ⟨f1, _ | ⟨f2, rest⟩⟩
  · rw [hm] at hlen; simp at hlen
  · rw [hm] at hlen; simp at hlen
  · have hnonnil : article.fallbacks ≠ [] := by
      intro h0
      rw [h0] at hm
      simp at hm
    have hne : article.fallbacks.isEmpty = false := by
      cases hfb : article.fallbacks
      · exact absurd hfb hnonnil
      · rfl
    have hsome : findFallbackInArticle article reasonCategory
        (normalizeToTokens failureNote) =
        some (bestByOverlap (normalizeToTokens failureNote) f1 (f2 :: rest)) := by
      simp [findFallbackInArticle, hne, hm]
    refine ⟨bestByOverlap (normalizeToTokens failureNote) f1 (f2 :: rest), ?_⟩
    have hmax := bestByOverlap_le (normalizeToTokens failureNote) (f2 :: rest) f1
    rcases bestByOverlap_first (normalizeToTokens failureNote) (f2 :: rest) f1 with
      hfirst | ⟨k, hk, hlt, hearl⟩
    · refine ⟨0, by simp [selectFallback, hsome], by rw [hm, hfirst]; rfl, ?_, ?_⟩
      · intro g hg
        rw [hm] at hg
        exact hmax g hg
      · intro j hj
        omega
    · refine ⟨k + 1, by simp [selectFallback, hsome], by rw [hm]; exact hk, ?_, ?_⟩
      · intro g hg
        rw [hm] at hg
        exact hmax g hg
      · intro j hj g hg
        rw [hm] at hg
        cases j with
        | zero =>
          have hgf : f1 = g := by simpa using hg
          rw [← hgf]
          exact hlt
        | succ j' =>
          exact hearl j' (Nat.succ_lt_succ_iff.mp hj) g hg

/-- Article for the C2 witness: the spec's multi-fallback tie-break
scenario, two "system-error" fallbacks with different trigger keywords. -/
def artTie : Article :=
  { id := 5, title := "Mail", tags := [], product := "", keywords := []
    steps := []
    fallbacks :=
      [{ id := "f1", reason_category := "system-error"
         trigger_keywords := ["smtp", "port"], steps := [] },
       { id := "f2", reason_category := "system-error"
         trigger_keywords := ["quota", "space"], steps := [] }]
    escalation := { whenText := "w", target := "t" } }

/-- Witness for C2 at the spec scenario (note "smtp port wrong"). -/
theorem C2_same_article_best_overlap_witness :
    2 ≤ (artTie.fallbacks.filter
      (fun fb => fb.reason_category = "system-error")).length ∧
    (∃ fb k,
      selectFallback artTie [] "system-error" "smtp port wrong" =
        FallbackResult.sameArticle fb artTie ∧
      (artTie.fallbacks.filter
        (fun fb => fb.reason_category = "system-error")).get? k = some fb ∧
      (∀ g ∈ artTie.fallbacks.filter (fun fb => fb.reason_category = "system-error"),
        calculateKeywordOverlap g.trigger_keywords (normalizeToTokens "smtp port wrong") ≤
          calculateKeywordOverlap fb.trigger_keywords (normalizeToTokens "smtp port wrong")) ∧
      (∀ j < k, ∀ g,
        (artTie.fallbacks.filter
          (fun fb => fb.reason_category = "system-error")).get? j = some g →
        calculateKeywordOverlap g.trigger_keywords (normalizeToTokens "smtp port wrong") <
          calculateKeywordOverlap fb.trigger_keywords (normalizeToTokens "smtp port wrong"))) :=
  ⟨by decide, C2_same_article_best_overlap artTie [] "system-error" "smtp port wrong" (by decide)⟩

/-- Article for C1: one fallback whose single step duplicates a completed
step text, so the deduplication engine skips every fallback step. -/
def artCable : Article :=
  { id := 4, title := "Cable", tags := [], product := "", keywords := []
    steps := [{ id := "m1", text := "intro step" }]
    fallbacks := [{ id := "fb1", reason_category := "system-error", trigger_keywords := []
                    steps := [{ id := "c1", text := "check the cable" }] }]
    escalation := { whenText := "w", target := "t" } }

/-- C1, evaluation at the failing input: with every fallback step in the
skip set, `switchToFallback` leaves `currentStepIndex` at 0 (not the full
length 1), records `skippedStepsCount` 0 (not 1), and `isComplete` stays
false — the skipped step is presented again instead of signalling
immediate completion. -/
theorem C1_switchToFallback_all_skipped_eval :
    findStepsToSkip [{ id := "c1", text := "check the cable" }] ["check the cable"] =
      ({0} : Finset ℕ) ∧
    (switchToFallback (startArticle 4 artCable).1 "fb1" artCable
        ["check the cable"]).1.currentStepIndex = 0 ∧
    (switchToFallback (startArticle 4 artCable).1 "fb1" artCable
        ["check the cable"]).1.skippedStepsCount = 0 ∧
    isComplete (switchToFallback (startArticle 4 artCable).1 "fb1" artCable
        ["check the cable"]).1 artCable = false := by
  decide

/-- C6: `areSimilar(a, b)` at the default threshold 0.6 is true iff the
raw texts are identical or the Jaccard similarity of their normalized
token sets is strictly greater than 0.6; in particular it is reflexive on
non-empty strings. -/
theorem C6_areSimilar_iff :
    (∀ a b : String, areStepsSimilar a b = true ↔
      (a = b ∨ (6 : ℚ) / 10 <
        calculateJaccardSimilarity (normalizeToTokens a) (normalizeToTokens b))) ∧
    (∀ x : String, x ≠ "" → areStepsSimilar x x = true) := by
  constructor
  · intro a b
    by_cases h : a = b
    · simp [areStepsSimilar, areStepsSimilarWith, h]
    · simp [areStepsSimilar, areStepsSimilarWith, STEP_SIMILARITY_THRESHOLD, h]
  · intro x _
    simp [areStepsSimilar, areStepsSimilarWith]

/-- Witness for C6 at concrete texts: two texts similar through the
token-set route and reflexivity on a concrete non-empty string. -/
theorem C6_areSimilar_iff_witness :
    (areStepsSimilar "check the network cable" "check the network cable again" = true ↔
      ("check the network cable" = "check the network cable again" ∨ (6 : ℚ) / 10 <
        calculateJaccardSimilarity (normalizeToTokens "check the network cable")
          (normalizeToTokens "check the network cable again"))) ∧
    areStepsSimilar "restart the router" "restart the router" = true :=
  ⟨C6_areSimilar_iff.1 "check the network cable" "check the network cable again",
   C6_areSimilar_iff.2 "restart the router" (by decide)⟩

/-- C8: `back()` decrements the index and succeeds exactly when the index
is positive, leaves the whole state untouched otherwise, and never
changes `completedStepIds`. -/
theorem C8_back_spec :
    ∀ s : RunState,
      (0 < s.currentStepIndex →
        back s = ({ s with currentStepIndex := s.currentStepIndex - 1 },
          { success := true })) ∧
      (s.currentStepIndex = 0 → back s = (s, { success := false })) ∧
      (back s).1.completedStepIds = s.completedStepIds := by
  intro s
  refine ⟨fun h => ?_, fun h => ?_, ?_⟩
  · simp [back, h]
  · simp [back, h]
  · by_cases h : 0 < s.currentStepIndex <;> simp [back, h]

/-- Witness for C8: one state with a positive index and one at index 0. -/
theorem C8_back_spec_witness :
    back { initialState with currentStepIndex := 2 } =
      ({ initialState with currentStepIndex := 1 }, { success := true }) ∧
    back initialState = (initialState, { success := false }) :=
  ⟨(C8_back_spec { initialState with currentStepIndex := 2 }).1 (by decide),
   (C8_back_spec initialState).2.1 rfl⟩

/-- The article governing the active path: the one passed to the most
recent `startArticle` or `switchToFallback` call. -/
def pathArticleUpd (cur : Option Article) : Op → Option Article
  | .start _ article => some article
  | .switchFb _ article _ => some article
  | _ => cur

/-- The article passed to the last `startArticle` or `switchToFallback`
of a trace, if any. -/
def lastPathArticle (ops : List Op) : Option Article :=
  ops.foldl pathArticleUpd none

/-- The article id passed to the most recent `startArticle`. -/
def startIdUpd (cur : Option ℕ) : Op → Option ℕ
  | .start articleId _ => some articleId
  | _ => cur

/-- The article id passed to the last `startArticle` of a trace, if any. -/
def lastStartId (ops : List Op) : Option ℕ :=
  ops.foldl startIdUpd none

/-- A well-formed call discipline: every `switchToFallback` passes a
fallback id present on the article it passes (as the UI layer does, the
id coming from `selectFallback`). -/
def opWellFormed : Op → Prop
  | .switchFb fallbackId article _ => ∃ fb ∈ article.fallbacks, fb.id = fallbackId
  | _ => True

instance : DecidablePred opWellFormed := by
  intro op
  cases op with
  | switchFb fallbackId article texts => exact List.decidableBEx _ article.fallbacks
  | start articleId article => exact isTrue trivial
  | cont article => exact isTrue trivial
  | goBack => exact isTrue trivial
  | fail stepId reasonCategory note => exact isTrue trivial

/-- `continue` never changes the active path. -/
theorem continueRun_fst_activePath (s : RunState) (article : Article) :
    (continueRun s article).1.activePath = s.activePath := by
  cases h : getCurrentStep s article <;> simp [continueRun, h]

/-- `continue` never changes the selected article id. -/
theorem continueRun_fst_selectedArticleId (s : RunState) (article : Article) :
    (continueRun s article).1.selectedArticleId = s.selectedArticleId := by
  cases h : getCurrentStep s article <;> simp [continueRun, h]

/-- `back` never changes the active path. -/
theorem back_fst_activePath (s : RunState) :
    (back s).1.activePath = s.activePath := by
  by_cases h : 0 < s.currentStepIndex <;> simp [back, h]

/-- `back` never changes the selected article id. -/
theorem back_fst_selectedArticleId (s : RunState) :
    (back s).1.selectedArticleId = s.selectedArticleId := by
  by_cases h : 0 < s.currentStepIndex <;> simp [back, h]

/-- `switchToFallback` installs the passed fallback id as active path. -/
theorem switchToFallback_fst_activePath (s : RunState) (fallbackId : String)
    (article : Article) (texts : List String) :
    (switchToFallback s fallbackId article texts).1.activePath = fallbackId :=
  rfl

/-- `switchToFallback` does not touch the selected article id. -/
theorem switchToFallback_fst_selectedArticleId (s : RunState) (fallbackId : String)
    (article : Article) (texts : List String) :
    (switchToFallback s fallbackId article texts).1.selectedArticleId =
      s.selectedArticleId :=
  rfl

/-- Trace invariant, generalized over the starting state: under the
well-formed call discipline the active path is "main" or a fallback id of
the article tracked by `pathArticleUpd`, and the selected article id is
the one tracked by `startIdUpd`. -/
theorem runTrace_path_aux :
    ∀ (ops : List Op) (s : RunState) (ctx : Option Article) (sid : Option ℕ),
      (∀ op ∈ ops, opWellFormed op) →
      (s.activePath = "main" ∨
        ∃ a, ctx = some a ∧ ∃ fb ∈ a.fallbacks, fb.id = s.activePath) →
      s.selectedArticleId = sid →
      ((ops.foldl applyOp s).activePath = "main" ∨
        ∃ a, ops.foldl pathArticleUpd ctx = some a ∧
          ∃ fb ∈ a.fallbacks, fb.id = (ops.foldl applyOp s).activePath) ∧
      (ops.foldl applyOp s).selectedArticleId = ops.foldl startIdUpd sid := by
  intro ops
  induction ops with
  | nil =>
    intro s ctx sid _ hinv hsid
    exact ⟨hinv, hsid⟩
  | cons op rest ih =>
    intro s ctx sid hwf hinv hsid
    have hwfop := hwf op (List.mem_cons_self op rest)
    have hwfrest : ∀ o ∈ rest, opWellFormed o :=
      fun o ho => hwf o (List.mem_cons_of_mem op ho)
    refine ih (applyOp s op) (pathArticleUpd ctx op) (startIdUpd sid op) hwfrest ?_ ?_
    · cases op with
      | start articleId article => left; rfl
      | cont article =>
        rcases hinv with h | ⟨b, hb, fb, hfb, hid⟩
        · left; rw [applyOp, continueRun_fst_activePath]; exact h
        · right
          exact ⟨b, hb, fb, hfb, by rw [applyOp, continueRun_fst_activePath]; exact hid⟩
      | goBack =>
        rcases hinv with h | ⟨b, hb, fb, hfb, hid⟩
        · left; rw [applyOp, back_fst_activePath]; exact h
        · right
          exact ⟨b, hb, fb, hfb, by rw [applyOp, back_fst_activePath]; exact hid⟩
      | fail stepId reasonCategory note =>
        rcases hinv with h | ⟨b, hb, fb, hfb, hid⟩
        · left; exact h
        · right; exact ⟨b, hb, fb, hfb, hid⟩
      | switchFb fallbackId article texts =>
        right
        obtain ⟨fb, hfb, hid⟩ := hwfop
        exact ⟨article, rfl, fb, hfb, hid⟩
    · cases op with
      | start articleId article => rfl
      | cont article => rw [applyOp, continueRun_fst_selectedArticleId]; exact hsid
      | goBack => rw [applyOp, back_fst_selectedArticleId]; exact hsid
      | fail stepId reasonCategory note => exact hsid
      | switchFb fallbackId article texts =>
        rw [applyOp, switchToFallback_fst_selectedArticleId]; exact hsid

/-- C4 counterexample: after starting article `artPerm` (id 1) and
switching to fallback "fy", which lives on the other article `artOther`
(id 2), the runner's own state still carries `selectedArticleId` 1 while
`activePath` is "fy" — which is not "main" and not a fallback id of the
article the state says is selected.  The selected article id was not
updated together with the path. -/
theorem C4_counterexample_stale_selected_id :
    (runTrace [Op.start 1 artPerm, Op.switchFb "fy" artOther []]).activePath = "fy" ∧
    (runTrace [Op.start 1 artPerm,
      Op.switchFb "fy" artOther []]).selectedArticleId = some artPerm.id ∧
    artPerm.id = 1 ∧ artOther.id = 2 ∧
    (∃ fb ∈ artOther.fallbacks, fb.id = "fy") ∧
    (runTrace [Op.start 1 artPerm, Op.switchFb "fy" artOther []]).activePath ≠ "main" ∧
    (∀ fb ∈ artPerm.fallbacks,
      fb.id ≠ (runTrace [Op.start 1 artPerm, Op.switchFb "fy" artOther []]).activePath) := by
  decide

/-- C4 amended: after any trace in which every `switchToFallback` passes a
fallback id present on the article it passes, the active path is "main"
or a fallback id of the article most recently passed to `startArticle` or
`switchToFallback`; the runner's `selectedArticleId` is not updated by
`switchToFallback` and always equals the id passed to the most recent
`startArticle`. -/
theorem C4_amended_path_resolves :
    ∀ ops : List Op, (∀ op ∈ ops, opWellFormed op) →
      ((runTrace ops).activePath = "main" ∨
        ∃ a, lastPathArticle ops = some a ∧
          ∃ fb ∈ a.fallbacks, fb.id = (runTrace ops).activePath) ∧
      (runTrace ops).selectedArticleId = lastStartId ops :=
  fun ops hwf => runTrace_path_aux ops initialState none none hwf (Or.inl rfl) rfl

/-- Witness for the amended C4 on a concrete well-formed trace ending in
a same-article fallback switch. -/
theorem C4_amended_path_resolves_witness :
    (∀ op ∈ [Op.start 1 artPerm, Op.switchFb "fx" artPerm []], opWellFormed op) ∧
    (((runTrace [Op.start 1 artPerm, Op.switchFb "fx" artPerm []]).activePath = "main" ∨
      ∃ a, lastPathArticle [Op.start 1 artPerm, Op.switchFb "fx" artPerm []] = some a ∧
        ∃ fb ∈ a.fallbacks,
          fb.id = (runTrace [Op.start 1 artPerm, Op.switchFb "fx" artPerm []]).activePath) ∧
    (runTrace [Op.start 1 artPerm, Op.switchFb "fx" artPerm []]).selectedArticleId =
      lastStartId [Op.start 1 artPerm, Op.switchFb "fx" artPerm []]) :=
  ⟨by decide,
   C4_amended_path_resolves [Op.start 1 artPerm, Op.switchFb "fx" artPerm []] (by decide)⟩

/-- A fold that adds `c` for every element satisfying `p` counts the
filtered elements. -/
theorem foldl_count_step {α : Type} (p : α → Bool) (c : ℕ) :
    ∀ (l : List α) (n : ℕ),
      l.foldl (fun acc x => if p x then acc + c else acc) n =
        n + c * (l.filter p).length := by
  intro l
  induction l with
  | nil => intro n; simp
  | cons x xs ih =>
    intro n
    by_cases h : p x
    · simp only [List.foldl_cons, List.filter_cons, h, if_pos, ih]
      simp [Nat.mul_add, Nat.mul_one]
      ring
    · simp only [List.foldl_cons, List.filter_cons, h, ih]
      simp [h]

/-- Closed form of the retrieval score: 3 per substring-matched tag, 2
for a product hit, 1 for a title hit, 1 per matched keyword. -/
theorem scoreArticle_eq (queryLower : String) (queryTokens : List String) (a : Article) :
    scoreArticle queryLower queryTokens a =
      3 * (a.tags.filter (fun tag =>
        queryTokens.any (fun tok => strContains (strLower tag) tok))).length
      + (if a.product ≠ "" ∧ strContains queryLower (strLower a.product) = true then 2 else 0)
      + (if a.title ≠ "" ∧ strContains (strLower a.title) queryLower = true then 1 else 0)
      + (a.keywords.filter (fun kw => strContains queryLower (strLower kw))).length := by
  unfold scoreArticle
  rw [foldl_count_step, foldl_count_step]
  simp

instance : IsTotal RetrievalResult byScoreDesc :=
  ⟨fun a b => Nat.le_total b.score a.score⟩

instance : IsTrans RetrievalResult byScoreDesc :=
  ⟨fun _ _ _ hab hbc => le_trans hbc hab⟩

/-- Article with a single tag, empty title and product, used against the
query "mail". -/
def artEmail : Article :=
  { id := 7, title := "", tags := ["email"], product := "", keywords := []
    steps := [], fallbacks := [], escalation := { whenText := "", target := "" } }

/-- C7 counterexample: the query "mail" shares no token with the tag
"email" (the tag's only token is "email"), yet the scorer awards the tag
bonus of 3 — tag matching is substring containment of a query token in
the tag, not token equality. -/
theorem C7_counterexample_substring_not_token :
    search [artEmail] "mail" defaultResultLimit =
      [{ article := artEmail, score := 3 }] ∧
    splitWs (strLower "mail") = ["mail"] ∧
    normalizeToTokens "email" = ["email"] ∧
    (∀ t ∈ normalizeToTokens "email", t ∉ splitWs (strLower "mail")) := by
  decide

/-- C7 amended: every returned result has positive score, comes from the
corpus with its computed score, the list is sorted by score descending
and truncated to the limit; and the score adds exactly 3 per tag whose
lower-cased text contains some query token as a substring (plus the
product, title and keyword bonuses). -/
theorem C7_amended_search_spec :
    ∀ (articles : List Article) (query : String) (limit : ℕ),
      (∀ r ∈ search articles query limit,
        0 < r.score ∧ r.article ∈ articles ∧
        r.score = scoreArticle (strLower query) (splitWs (strLower query)) r.article) ∧
      List.Sorted byScoreDesc (search articles query limit) ∧
      (search articles query limit).length ≤ limit ∧
      (∀ a : Article,
        scoreArticle (strLower query) (splitWs (strLower query)) a =
          3 * (a.tags.filter (fun tag =>
            (splitWs (strLower query)).any (fun tok => strContains (strLower tag) tok))).length
          + (if a.product ≠ "" ∧
              strContains (strLower query) (strLower a.product) = true then 2 else 0)
          + (if a.title ≠ "" ∧
              strContains (strLower a.title) (strLower query) = true then 1 else 0)
          + (a.keywords.filter
              (fun kw => strContains (strLower query) (strLower kw))).length) := by
  intro articles query limit
  refine ⟨?_, ?_, ?_, fun a => scoreArticle_eq _ _ a⟩
  · intro r hr
    have hr1 : r ∈ ((scoredResults articles query).filter
        (fun r => 0 < r.score)).insertionSort byScoreDesc :=
      List.take_subset limit _ hr
    have hr2 : r ∈ (scoredResults articles query).filter (fun r => 0 < r.score) :=
      (List.perm_insertionSort byScoreDesc _).subset hr1
    have hmemfil := List.mem_filter.mp hr2
    have hpos : 0 < r.score := by simpa using hmemfil.2
    have hmem : r ∈ scoredResults articles query := hmemfil.1
    simp only [scoredResults] at hmem
    obtain ⟨a, ha, heq⟩ := List.mem_map.mp hmem
    refine ⟨hpos, ?_, ?_⟩
    · rw [← heq]; exact ha
    · rw [← heq]
  · exact (List.sorted_insertionSort byScoreDesc _).sublist
      (List.take_sublist _ _)
  · rw [search, List.length_take]
    exact Nat.min_le_left _ _
/-- Witness for the amended C7, extracting the per-result facts at the
concrete corpus and query of the counterexample. -/
theorem C7_amended_search_spec_witness :
    0 < (RetrievalResult.mk artEmail 3).score ∧
    (RetrievalResult.mk artEmail 3).article ∈ [artEmail] ∧
    (RetrievalResult.mk artEmail 3).score =
      scoreArticle (strLower "mail") (splitWs (strLower "mail"))
        (RetrievalResult.mk artEmail 3).article :=
  (C7_amended_search_spec [artEmail] "mail" 3).1 (RetrievalResult.mk artEmail 3) (by decide)

/-- The empty string occurs in every string as a substring. -/
theorem strContains_empty (s : String) : strContains s "" = true := by
  cases hd : s.data with
  | nil => simp [strContains, hd, containsSub]
  | cons c rest => simp [strContains, hd, containsSub, leadsChars]

/-- Lower-casing preserves all-whitespace strings. -/
theorem strLower_space (s : String) (h : s.data.all isSpaceChar = true) :
    (strLower s).data.all isSpaceChar = true := by
  have htl : ∀ c, isSpaceChar c = true → Char.toLower c = c := by
    intro c hc
    simp only [isSpaceChar, Bool.or_eq_true, decide_eq_true_eq] at hc
    rcases hc with ((((h1 | h1) | h1) | h1) | h1) | h1 <;> subst h1 <;> decide
  rw [List.all_eq_true] at h ⊢
  intro x hx
  obtain ⟨c, hc, rfl⟩ := List.mem_map.mp hx
  rw [htl c (h c hc)]
  exact h c hc

/-- Splitting an all-whitespace string on whitespace yields the empty
token. -/
theorem empty_mem_splitWs_of_space (s : String) (h : s.data.all isSpaceChar = true) :
    "" ∈ splitWs s := by
  unfold splitWs
  cases hd : s.data with
  | nil => simp [splitWsAux]
  | cons c rest =>
    have hc : isSpaceChar c = true := by
      rw [hd, List.all_cons, Bool.and_eq_true] at h
      exact h.1
    simp [splitWsAux, hc]

/-- C10: a query that is empty or all whitespace splits into the empty
token, which is a substring of every tag, so the scorer awards every
article 3 points per tag; every tagged corpus article therefore passes
the positive-score filter, and the search result is non-empty whenever
some corpus article is tagged and the limit is at least 1. -/
theorem C10_whitespace_query_scores_tags :
    ∀ (articles : List Article) (query : String) (limit : ℕ),
      query.data.all isSpaceChar = true →
      ("" ∈ splitWs (strLower query)) ∧
      (∀ a : Article,
        a.tags.foldl (fun acc tag =>
          if (splitWs (strLower query)).any (fun tok => strContains (strLower tag) tok)
          then acc + 3 else acc) 0 = 3 * a.tags.length) ∧
      (∀ a ∈ articles, a.tags ≠ [] →
        0 < scoreArticle (strLower query) (splitWs (strLower query)) a ∧
        { article := a, score := scoreArticle (strLower query) (splitWs (strLower query)) a } ∈
          (scoredResults articles query).filter (fun r => 0 < r.score)) ∧
      ((∃ a ∈ articles, a.tags ≠ []) → 1 ≤ limit → search articles query limit ≠ []) := by
  intro articles query limit hq
  have hl := strLower_space query hq
  have hmem0 := empty_mem_splitWs_of_space (strLower query) hl
  have htag : ∀ tag : String,
      (splitWs (strLower query)).any (fun tok => strContains (strLower tag) tok) = true :=
    fun tag => List.any_eq_true.mpr ⟨"", hmem0, strContains_empty (strLower tag)⟩
  have hfiltertags : ∀ a : Article,
      a.tags.filter (fun tag =>
        (splitWs (strLower query)).any (fun tok => strContains (strLower tag) tok)) = a.tags :=
    fun a => List.filter_eq_self.mpr (fun t _ => htag t)
  have htagpts : ∀ a : Article,
      a.tags.foldl (fun acc tag =>
        if (splitWs (strLower query)).any (fun tok => strContains (strLower tag) tok)
        then acc + 3 else acc) 0 = 3 * a.tags.length := by
    intro a
    rw [foldl_count_step, hfiltertags]
    simp
  have hscorepos : ∀ a : Article, a.tags ≠ [] →
      0 < scoreArticle (strLower query) (splitWs (strLower query)) a := by
    intro a ha
    rw [scoreArticle_eq, hfiltertags]
    have hlen : 0 < a.tags.length := List.length_pos.mpr ha
    omega
  have hfilmem : ∀ a ∈ articles, a.tags ≠ [] →
      { article := a, score := scoreArticle (strLower query) (splitWs (strLower query)) a } ∈
        (scoredResults articles query).filter (fun r => 0 < r.score) := by
    intro a ha hne
    refine List.mem_filter.mpr ⟨?_, ?_⟩
    · simp only [scoredResults]
      exact List.mem_map.mpr ⟨a, ha, rfl⟩
    · simpa using hscorepos a hne
  refine ⟨hmem0, htagpts, fun a ha hne => ⟨hscorepos a hne, hfilmem a ha hne⟩, ?_⟩
  rintro ⟨a, ha, hne⟩ hlim
  have hpos : 0 < ((scoredResults articles query).filter (fun r => 0 < r.score)).length :=
    List.length_pos.mpr (List.ne_nil_of_mem (hfilmem a ha hne))
  intro h0
  have hlen0 := congrArg List.length h0
  rw [search, List.length_take,
    (List.perm_insertionSort byScoreDesc _).length_eq] at hlen0
  simp only [List.length_nil] at hlen0
  omega

/-- Witness for C10: the one-tag article on the single-space query gives
a non-empty result list. -/
theorem C10_whitespace_query_scores_tags_witness :
    search [artEmail] " " 3 ≠ [] :=
  (C10_whitespace_query_scores_tags [artEmail] " " 3 (by decide)).2.2.2
    ⟨artEmail, by decide, by decide⟩ (by decide)

/-- C9: after any sequence of operations, `reset()` returns `getState()`
to the exact initial shape: no selected article, path "main", index 0,
empty completed set, empty histories, zero skipped-steps count. -/
theorem C9_reset_roundtrip :
    ∀ ops : List Op, getState (reset (runTrace ops)) =
      { selectedArticleId := none
        activePath := "main"
        currentStepIndex := 0
        completedStepIds := []
        attemptedPaths := []
        failureHistory := []
        skippedStepsCount := 0 } :=
  fun _ => rfl

end Stepper
